import Mathlib

/-!
Verification of the Notion synchronization engine (backend/app/modules/notion)
against its natural-language specification.  Each Python function that a claim
depends on is shallowly embedded as an executable Lean definition; theorems
about those definitions settle the claims.
-/

namespace CentralUpstream

/-! ### Remote client: `notion_client.NotionClient._request`

One HTTP attempt either fails at the network level (`requests.RequestException`)
or produces a response with a status code, an optional integral `Retry-After`
header and a body.  `_request` makes up to `retries = 5` attempts with an
exponential backoff seeded at 1 second. -/

inductive HttpResp where
  | netError : HttpResp
  | status (code : Nat) (retryAfter : Option Nat) (body : String) : HttpResp
deriving DecidableEq, Repr

inductive ReqOutcome where
  | success (body : String) : ReqOutcome
  | authFailure : ReqOutcome
  | transportFailure (code : Nat) : ReqOutcome
  | requestFailure (code : Nat) : ReqOutcome
  | networkFailure : ReqOutcome
  | maxRetriesExceeded : ReqOutcome
deriving DecidableEq, Repr

/-- Result of one `_request` call: how it ended, how many HTTP attempts were
made, and the sleep durations (seconds) performed between attempts. -/
structure ReqTrace where
  outcome : ReqOutcome
  attempts : Nat
  sleeps : List Nat
deriving DecidableEq, Repr

/-- The retry loop of `NotionClient._request` (notion_client.py lines 22-58).
`r n` is the result of the `n`-th HTTP attempt.  Arguments mirror the Python
state: remaining iterations of `for attempt in range(retries)`, the current
`attempt` index, and `backoff`.  A 401/403 raises `PermissionError`
immediately; 429/5xx retries, sleeping `int(headers.get("Retry-After", backoff))`
then doubling `backoff`, and on the final attempt surfaces the HTTP error;
other 4xx raise immediately; network errors retry sleeping `backoff`. -/
def requestIter (r : Nat → HttpResp) : Nat → Nat → Nat → ReqTrace
  | 0, _, _ => ⟨ReqOutcome.maxRetriesExceeded, 0, []⟩
  | remaining + 1, attempt, backoff =>
    match r attempt with
    | HttpResp.netError =>
      if remaining = 0 then ⟨ReqOutcome.networkFailure, 1, []⟩
      else
        let t := requestIter r remaining (attempt + 1) (backoff * 2)
        ⟨t.outcome, t.attempts + 1, backoff :: t.sleeps⟩
    | HttpResp.status code retryAfter body =>
      if code = 401 ∨ code = 403 then ⟨ReqOutcome.authFailure, 1, []⟩
      else if code = 429 ∨ 500 ≤ code then
        if remaining = 0 then ⟨ReqOutcome.transportFailure code, 1, []⟩
        else
          let t := requestIter r remaining (attempt + 1) (backoff * 2)
          ⟨t.outcome, t.attempts + 1, retryAfter.getD backoff :: t.sleeps⟩
      else if 400 ≤ code then ⟨ReqOutcome.requestFailure code, 1, []⟩
      else ⟨ReqOutcome.success body, 1, []⟩

/-- `NotionClient._request` with its fixed `retries = 5`, `backoff = 1`. -/
def notionRequest (r : Nat → HttpResp) : ReqTrace :=
  requestIter r 5 0 1

/-! ### Remote client pagination: `NotionClient.query_data_source`

The server is modelled as a function from the optional `start_cursor` of the
request payload to a page (`results`, `has_more`, `next_cursor`).  The Python
generator loops: request a page, yield its results, stop when `has_more` is
false, else feed `next_cursor` back as the next `start_cursor`.  `fuel` bounds
the number of loop iterations (the Python loop has no intrinsic bound). -/

structure QueryPage (α : Type) where
  results : List α
  hasMore : Bool
  nextCursor : Option Nat
deriving DecidableEq, Repr

structure QueryRun (α : Type) where
  records : List α
  requests : Nat
deriving DecidableEq, Repr

/-- The `while True` loop of `query_data_source` (notion_client.py 111-118). -/
def queryLoop {α : Type} (server : Option Nat → QueryPage α) :
    Nat → Option Nat → QueryRun α
  | 0, _ => ⟨[], 0⟩
  | fuel + 1, cursor =>
    let page := server cursor
    if page.hasMore then
      let rest := queryLoop server fuel page.nextCursor
      ⟨page.results ++ rest.records, rest.requests + 1⟩
    else ⟨page.results, 1⟩

/-- `NotionClient.query_data_source`: the first request carries no
`start_cursor` (the default `start_cursor=None` case). -/
def query_data_source {α : Type} (server : Option Nat → QueryPage α)
    (fuel : Nat) : QueryRun α :=
  queryLoop server fuel none

/-- A simulated remote source holding the records of `pages` split across
`pages.length` pages: page `i` carries continuation cursor `i + 1` and
`has_more` exactly when a further page exists.  A request with no cursor
serves page 0. -/
def mkPagedServer {α : Type} (pages : List (List α)) :
    Option Nat → QueryPage α := fun cursor =>
  let i := cursor.getD 0
  ⟨pages.getD i [], decide (i + 1 < pages.length), some (i + 1)⟩

lemma queryLoop_mkPagedServer {α : Type} (pages : List (List α)) :
    ∀ (fuel : Nat) (cursor : Option Nat),
      cursor.getD 0 < pages.length → pages.length ≤ cursor.getD 0 + fuel →
      queryLoop (mkPagedServer pages) fuel cursor =
        ⟨(pages.drop (cursor.getD 0)).flatten, pages.length - cursor.getD 0⟩
  | 0, cursor, hlt, hle => absurd (Nat.lt_of_lt_of_le hlt (by simpa using hle)) (lt_irrefl _)
  | fuel + 1, cursor, hlt, hle => by
    have hdrop : pages.drop (cursor.getD 0) =
        pages[cursor.getD 0] :: pages.drop (cursor.getD 0 + 1) :=
      List.drop_eq_getElem_cons hlt
    have hpage : mkPagedServer pages cursor =
        ⟨pages[cursor.getD 0], decide (cursor.getD 0 + 1 < pages.length),
          some (cursor.getD 0 + 1)⟩ := by
      simp [mkPagedServer, List.getD_eq_getElem?_getD,
        List.getElem?_eq_getElem hlt]
    by_cases hmore : cursor.getD 0 + 1 < pages.length
    · have ih := queryLoop_mkPagedServer pages fuel (some (cursor.getD 0 + 1))
        (by simpa using hmore) (by simp only [Option.getD_some]; omega)
      simp only [Option.getD_some] at ih
      rw [queryLoop, hpage]
      simp only [if_pos (decide_eq_true hmore), ih, hdrop, List.flatten_cons]
      refine congrArg (QueryRun.mk _) ?_
      omega
    · have hnil : pages.drop (cursor.getD 0 + 1) = [] :=
        List.drop_eq_nil_of_le (by omega)
      rw [queryLoop, hpage]
      simp only [if_neg (by simpa using hmore : ¬(decide (cursor.getD 0 + 1 < pages.length) = true)),
        hdrop, hnil, List.flatten_cons, List.flatten_nil, List.append_nil]
      refine congrArg (QueryRun.mk _) ?_
      omega

/-- C1: for every request issued through `NotionClient._request`, a run of
`429` responses with no `Retry-After` header is retried with doubling delays
1s, 2s, 4s, 8s and gives up after exactly 5 attempts surfacing a transport
failure, while a first response of `401` or `403` fails on the spot as an
authentication failure, with a single attempt and no sleep. -/
theorem claim_C1_retry_backoff_and_auth (r s : Nat → HttpResp) (b : Nat → String)
    (h429 : ∀ n, r n = HttpResp.status 429 none (b n))
    (c : Nat) (hc : c = 401 ∨ c = 403) (ra : Option Nat) (b0 : String)
    (hAuth : s 0 = HttpResp.status c ra b0) :
    notionRequest r = ⟨ReqOutcome.transportFailure 429, 5, [1, 2, 4, 8]⟩ ∧
    notionRequest s = ⟨ReqOutcome.authFailure, 1, []⟩ := by
  constructor
  · simp [notionRequest, requestIter, h429]
  · rcases hc with h | h <;> subst h <;>
      simp [notionRequest, requestIter, hAuth]

theorem claim_C1_witness :
    notionRequest (fun _ => HttpResp.status 429 none "") =
      ⟨ReqOutcome.transportFailure 429, 5, [1, 2, 4, 8]⟩ ∧
    notionRequest (fun _ => HttpResp.status 401 none "") =
      ⟨ReqOutcome.authFailure, 1, []⟩ :=
  claim_C1_retry_backoff_and_auth _ _ (fun _ => "") (fun _ => rfl)
    401 (Or.inl rfl) none "" rfl

/-- C2: a simulated remote source of `N` records split across `P ≥ 1` pages,
queried through `NotionClient.query_data_source` with enough fuel, yields
exactly the `N` records in original server order (the concatenation of the
pages) and issues exactly `P` requests — it terminates exactly when the
`has_more` flag goes false, feeding each page's cursor into the next request
(the served page content is keyed by the fed cursor). -/
theorem claim_C2_pagination {α : Type} (pages : List (List α)) (fuel : Nat)
    (hne : 0 < pages.length) (hfuel : pages.length ≤ fuel) :
    query_data_source (mkPagedServer pages) fuel =
      ⟨pages.flatten, pages.length⟩ := by
  have h := queryLoop_mkPagedServer pages fuel none (by simpa using hne)
    (by simpa using hfuel)
  simpa [query_data_source] using h

theorem claim_C2_witness :
    query_data_source (mkPagedServer [[1, 2], [3], [4, 5]]) 3 =
      ⟨[1, 2, 3, 4, 5], 3⟩ := by
  have h := claim_C2_pagination [[1, 2], [3], [4, 5]] 3 (by decide) (by decide)
  simpa using h

/-! ### Sync results and the job manager: `sync.SyncResult`, `sync_manager.NotionSyncManager` -/

/-- `SyncResult` as built by `_result` in `sync.run_full_sync`. -/
structure SyncResult where
  ok : Bool
  mode : String
  fetched_count : Nat
  upserted_count : Nat
  duration_ms : Nat
  error : Option String
deriving DecidableEq, Repr

/-- The `_state` dict of `NotionSyncManager` (sync_manager.py lines 14-23). -/
structure JobState where
  status : String
  processed : Nat
  total : Nat
  mode : String
  error : Option String
  result : Option SyncResult
  started_at : Option String
  finished_at : Option String
deriving DecidableEq, Repr

/-- Initial job state set in `NotionSyncManager.__init__`. -/
def initialJobState : JobState :=
  ⟨"idle", 0, 0, "refresh", none, none, none, none⟩

/-- `NotionSyncManager.start_sync` (sync_manager.py lines 26-46), run under the
manager's lock.  Returns the state snapshot handed back to the caller together
with a flag recording whether a new background orchestrator thread was
spawned.  `now` stands for `datetime.utcnow().isoformat() + "Z"`. -/
def start_sync (st : JobState) (force_full : Bool) (now : String) :
    JobState × Bool :=
  if st.status = "running" then (st, false)
  else
    ({ st with
        status := "running", processed := 0, total := 0,
        mode := if force_full then "full" else "refresh",
        error := none, started_at := some now, finished_at := none }, true)

/-! ### Notion API version pinning (`sync.py` lines 28, 184-185)

`run_full_sync` computes
`version = settings.get("notion_api_version") or DEFAULT_NOTION_VERSION`
followed by
`version = DEFAULT_NOTION_VERSION if version != DEFAULT_NOTION_VERSION else version`,
and this `version` is what is passed to the `NotionClient` constructor and
written to the `notion_api_version` meta key. -/

def DEFAULT_NOTION_VERSION : String := "2025-09-03"

/-- Python `x or default` on an optional string: `None` and `""` are falsy. -/
def orStr (x : Option String) (dflt : String) : String :=
  match x with
  | none => dflt
  | some s => if s = "" then dflt else s

/-- The two version lines of `run_full_sync` (sync.py lines 184-185). -/
def resolve_notion_api_version (setting : Option String) : String :=
  let version := orStr setting DEFAULT_NOTION_VERSION
  if version ≠ DEFAULT_NOTION_VERSION then DEFAULT_NOTION_VERSION else version

/-- C3: single-flight guard of `NotionSyncManager.start_sync`.  While the
status is `running` a further `start` call spawns no new orchestrator thread
and returns the current state unchanged; from a non-running state the first
call spawns a thread and moves the status to `running`, so a second call in
quick succession spawns nothing, returns the running snapshot unchanged, and
the two calls together spawn exactly one orchestrator execution. -/
theorem claim_C3_single_flight (st : JobState) (f f' : Bool) (now now' : String) :
    (st.status = "running" → start_sync st f now = (st, false)) ∧
    (st.status ≠ "running" →
      (start_sync st f now).2 = true ∧
      (start_sync st f now).1.status = "running" ∧
      start_sync (start_sync st f now).1 f' now' = ((start_sync st f now).1, false) ∧
      (cond (start_sync st f now).2 1 0) +
        (cond (start_sync (start_sync st f now).1 f' now').2 1 0) = 1) := by
  constructor
  · intro h
    simp [start_sync, h]
  · intro h
    simp [start_sync, h]

theorem claim_C3_witness :
    start_sync ⟨"running", 3, 5, "full", none, none, some "t0", none⟩ true "t1" =
      (⟨"running", 3, 5, "full", none, none, some "t0", none⟩, false) ∧
    (start_sync initialJobState true "t1").2 = true ∧
    (start_sync initialJobState true "t1").1.status = "running" ∧
    start_sync (start_sync initialJobState true "t1").1 false "t2" =
      ((start_sync initialJobState true "t1").1, false) :=
  ⟨(claim_C3_single_flight ⟨"running", 3, 5, "full", none, none, some "t0", none⟩
      true true "t1" "t1").1 rfl,
    ((claim_C3_single_flight initialJobState true false "t1" "t2").2 (by decide)).1,
    ((claim_C3_single_flight initialJobState true false "t1" "t2").2 (by decide)).2.1,
    ((claim_C3_single_flight initialJobState true false "t1" "t2").2 (by decide)).2.2.1⟩

/-- C10: the configured `notion_api_version` setting never influences the
version actually used: whatever the setting holds (absent, empty, the default,
or any other string), the value `run_full_sync` passes to the `NotionClient`
constructor and later records into the `notion_api_version` meta key is the
fixed default `"2025-09-03"`. -/
theorem claim_C10_version_pinned (setting : Option String) :
    resolve_notion_api_version setting = DEFAULT_NOTION_VERSION := by
  cases setting with
  | none => simp [resolve_notion_api_version, orStr]
  | some s =>
    by_cases h : s = ""
    · simp [resolve_notion_api_version, orStr, h]
    · by_cases h2 : s = DEFAULT_NOTION_VERSION <;>
        simp [resolve_notion_api_version, orStr, h, h2]

/-! ### Local store: `repository.NotionRepository`

The wide table `notion_rows` is modelled by its ordered column list plus its
rows; `ALTER TABLE ... ADD COLUMN` appends a column definition (failing on a
duplicate name) and leaves the stored rows untouched (new columns read as
NULL).  A row is an association list from column name to stored value. -/

structure ColumnDef where
  name : String
  ctype : String
deriving DecidableEq, Repr

abbrev WideRow := List (String × String)

structure WideTable where
  columns : List ColumnDef
  rows : List WideRow
deriving DecidableEq, Repr

def colNames (t : WideTable) : List String :=
  t.columns.map ColumnDef.name

/-- `ALTER TABLE notion_rows ADD COLUMN name ctype`: errors on a duplicate
column name, otherwise appends the column; row data is unchanged. -/
def addColumn (t : WideTable) (name ctype : String) : Except String WideTable :=
  if name ∈ colNames t then Except.error ("duplicate column name: " ++ name)
  else Except.ok { t with columns := t.columns ++ [⟨name, ctype⟩] }

def addColumns (t : WideTable) : List (String × String) → Except String WideTable
  | [] => Except.ok t
  | (n, ty) :: rest =>
    match addColumn t n ty with
    | Except.error e => Except.error e
    | Except.ok t' => addColumns t' rest

/-- One entry of the property map built by `sync._build_property_map`:
`{"column": ..., "type": ..., "id": ..., "sqlite_type": ...}`. -/
structure PropEntry where
  column : String
  ptype : String
  pid : String
  sqlite_type : String
deriving DecidableEq, Repr

/-- A property map in Python-dict insertion order: property name → entry. -/
abbrev PropertyMap := List (String × PropEntry)

/-- The `base_columns` dict of `ensure_wide_table` (repository.py 61-67), in
its insertion order (the Python code iterates the *set* of missing base names,
whose order is unspecified; we fix the dict order, which is immaterial to the
claims since only membership of base columns is ever observed). -/
def base_columns : List (String × String) :=
  [("id", "TEXT"), ("last_edited_time", "TEXT"), ("created_time", "TEXT"),
   ("archived", "INTEGER"), ("url", "TEXT")]

/-- `NotionRepository.ensure_wide_table` (repository.py lines 59-87): add the
missing base columns, then every map column that is non-empty and not among
the pre-existing column names (the `existing` set updated with the added base
names), in map order. -/
def ensure_wide_table (t : WideTable) (pm : PropertyMap) : Except String WideTable :=
  let existing := colNames t
  let missing_base := base_columns.filter (fun b => decide (b.1 ∉ existing))
  match addColumns t missing_base with
  | Except.error e => Except.error e
  | Except.ok t1 =>
    let existing1 := existing ++ missing_base.map Prod.fst
    let columns_to_add :=
      ((pm.map Prod.snd).filter
          (fun e => decide (e.column ≠ "") && decide (e.column ∉ existing1))).map
        (fun e => (e.column, e.sqlite_type))
    addColumns t1 columns_to_add

/-! ### Local store: relation edges (`notion_relations`) -/

/-- A row of the `notion_relations` table (schema.py lines 41-49), primary key
`(from_page_id, property_name, to_page_id)`. -/
structure RelationEdge where
  from_page_id : String
  property_name : String
  property_value : String
  to_page_id : String
  position : Nat
  value : String
deriving DecidableEq, Repr

/-- One relation dict produced by `sync._extract_relations_from_page` and
consumed by `replace_relations_for_page`. -/
structure RelInput where
  property_name : String
  property_value : String
  to_page_id : String
  position : Nat
  value : String
deriving DecidableEq, Repr

def relKey (e : RelationEdge) : String × String × String :=
  (e.from_page_id, e.property_name, e.to_page_id)

/-- `INSERT OR REPLACE` against the `(from_page_id, property_name, to_page_id)`
primary key: drop any row with the same key, then insert. -/
def insertOrReplaceRelation (tbl : List RelationEdge) (e : RelationEdge) :
    List RelationEdge :=
  tbl.filter (fun x => decide (relKey x ≠ relKey e)) ++ [e]

/-- The tuple built for each relation dict in `replace_relations_for_page`. -/
def mkEdge (page_id : String) (rel : RelInput) : RelationEdge :=
  ⟨page_id, rel.property_name, rel.property_value, rel.to_page_id,
    rel.position, rel.value⟩

/-- `NotionRepository.replace_relations_for_page` (repository.py lines
130-155): delete every edge with `from_page_id = page_id`, then insert the
supplied relations. -/
def replace_relations_for_page (tbl : List RelationEdge) (page_id : String)
    (relations : List RelInput) : List RelationEdge :=
  let rows := relations.map (mkEdge page_id)
  let deleted := tbl.filter (fun e => decide (e.from_page_id ≠ page_id))
  rows.foldl insertOrReplaceRelation deleted

lemma addColumns_ok :
    ∀ (cols : List (String × String)) (t : WideTable),
      (cols.map Prod.fst).Nodup →
      (∀ c ∈ cols, c.1 ∉ colNames t) →
      addColumns t cols =
        Except.ok ⟨t.columns ++ cols.map (fun c => ⟨c.1, c.2⟩), t.rows⟩
  | [], t, _, _ => by simp [addColumns]
  | (n, ty) :: rest, t, hnd, hfresh => by
    have hn : n ∉ colNames t := hfresh (n, ty) (List.mem_cons_self _ _)
    have hnd' : n ∉ rest.map Prod.fst ∧ (rest.map Prod.fst).Nodup := by
      rw [List.map_cons, List.nodup_cons] at hnd
      exact hnd
    have hfresh' : ∀ c ∈ rest, c.1 ∉ colNames ⟨t.columns ++ [⟨n, ty⟩], t.rows⟩ := by
      intro c hc
      have h1 : c.1 ∉ colNames t := hfresh c (List.mem_cons_of_mem _ hc)
      have h2 : c.1 ≠ n := fun he =>
        hnd'.1 (he ▸ List.mem_map_of_mem Prod.fst hc)
      simp only [colNames, List.map_append]
      intro hmem
      rcases List.mem_append.mp hmem with hx | hx
      · exact h1 hx
      · simp at hx
        exact h2 hx
    have hrec := addColumns_ok rest ⟨t.columns ++ [⟨n, ty⟩], t.rows⟩ hnd'.2 hfresh'
    rw [addColumns, addColumn, if_neg hn]
    show addColumns ⟨t.columns ++ [⟨n, ty⟩], t.rows⟩ rest = _
    rw [hrec]
    simp

lemma ensure_wide_table_spec (t : WideTable) (pm : PropertyMap)
    (hnd : ((pm.map Prod.snd).map PropEntry.column).Nodup) :
    ∃ added : List ColumnDef,
      ensure_wide_table t pm = Except.ok ⟨t.columns ++ added, t.rows⟩ ∧
      (∀ c ∈ added, c.name ∉ colNames t ∧
        (c.name ∈ base_columns.map Prod.fst ∨
         c.name ∈ (pm.map Prod.snd).map PropEntry.column)) ∧
      (∀ e ∈ pm.map Prod.snd, e.column ≠ "" →
        e.column ∈ colNames ⟨t.columns ++ added, t.rows⟩) ∧
      (∀ b ∈ base_columns, b.1 ∈ colNames ⟨t.columns ++ added, t.rows⟩) := by
  classical
  set mb := base_columns.filter (fun b => decide (b.1 ∉ colNames t)) with hmb
  have hmb_nd : (mb.map Prod.fst).Nodup := by
    have hs : mb.Sublist base_columns := List.filter_sublist _
    exact (hs.map Prod.fst).nodup (by decide)
  have hmb_fresh : ∀ c ∈ mb, c.1 ∉ colNames t := by
    intro c hc
    have := List.of_mem_filter hc
    simpa using this
  have h1 := addColumns_ok mb t hmb_nd hmb_fresh
  set t1 : WideTable := ⟨t.columns ++ mb.map (fun c => ⟨c.1, c.2⟩), t.rows⟩ with ht1
  have hnames1 : colNames t1 = colNames t ++ mb.map Prod.fst := by
    simp [colNames, ht1, List.map_map, Function.comp]
  set ex1 := colNames t ++ mb.map Prod.fst with hex1
  set flt := (pm.map Prod.snd).filter
      (fun e => decide (e.column ≠ "") && decide (e.column ∉ ex1)) with hflt
  set cta := flt.map (fun e => (e.column, e.sqlite_type)) with hcta
  have hcta_nd : (cta.map Prod.fst).Nodup := by
    have : cta.map Prod.fst = flt.map PropEntry.column := by
      simp [hcta, List.map_map, Function.comp]
    rw [this]
    exact ((List.filter_sublist _).map PropEntry.column).nodup hnd
  have hcta_fresh : ∀ c ∈ cta, c.1 ∉ colNames t1 := by
    intro c hc
    rw [hcta] at hc
    obtain ⟨e, he, hec⟩ := List.mem_map.mp hc
    have hp := List.of_mem_filter he
    simp only [Bool.and_eq_true, decide_eq_true_eq] at hp
    rw [hnames1, ← hec]
    exact hp.2
  have h2 := addColumns_ok cta t1 hcta_nd hcta_fresh
  refine ⟨mb.map (fun c => ⟨c.1, c.2⟩) ++ cta.map (fun c => ⟨c.1, c.2⟩), ?_, ?_, ?_, ?_⟩
  · show ensure_wide_table t pm = _
    rw [ensure_wide_table]
    simp only [← hmb, h1, ← hex1, ← hflt, ← hcta]
    rw [h2]
    simp [ht1]
  · intro c hc
    rcases List.mem_append.mp hc with hcm | hcm
    · obtain ⟨b, hb, hbc⟩ := List.mem_map.mp hcm
      refine ⟨?_, Or.inl ?_⟩
      · rw [← hbc]; exact hmb_fresh b hb
      · rw [← hbc]
        exact List.mem_map_of_mem Prod.fst (List.mem_of_mem_filter hb)
    · obtain ⟨p, hp, hpc⟩ := List.mem_map.mp hcm
      obtain ⟨e, he, hec⟩ := List.mem_map.mp (hcta ▸ hp)
      have hpred := List.of_mem_filter he
      simp only [Bool.and_eq_true, decide_eq_true_eq] at hpred
      refine ⟨?_, Or.inr ?_⟩
      · rw [← hpc, ← hec]
        intro hmem
        exact hpred.2 (by rw [hex1]; exact List.mem_append_left _ hmem)
      · rw [← hpc, ← hec]
        exact List.mem_map_of_mem PropEntry.column (List.mem_of_mem_filter he)
  · intro e he hne
    by_cases hex : e.column ∈ ex1
    · rcases List.mem_append.mp (hex1 ▸ hex) with hx | hx
      · simp only [colNames, List.map_append]
        exact List.mem_append_left _ (by simpa [colNames] using hx)
      · simp only [colNames, List.map_append]
        refine List.mem_append_right _ ?_
        refine List.mem_append_left _ ?_
        obtain ⟨b, hb, hbe⟩ := List.mem_map.mp hx
        rw [← hbe]
        have : (ColumnDef.mk b.1 b.2).name = b.1 := rfl
        exact this ▸ List.mem_map_of_mem ColumnDef.name (List.mem_map_of_mem _ hb)
    · have hin : e ∈ flt := by
        rw [hflt]
        refine List.mem_filter.mpr ⟨he, ?_⟩
        simp [hne, hex]
      simp only [colNames, List.map_append]
      refine List.mem_append_right _ (List.mem_append_right _ ?_)
      have : (ColumnDef.mk e.column e.sqlite_type).name = e.column := rfl
      have hm : ⟨e.column, e.sqlite_type⟩ ∈ cta.map (fun c => (⟨c.1, c.2⟩ : ColumnDef)) := by
        rw [hcta, List.map_map]
        exact List.mem_map_of_mem _ hin
      simpa using List.mem_map_of_mem ColumnDef.name hm
  · intro b hb
    by_cases hx : b.1 ∈ colNames t
    · simp only [colNames, List.map_append]
      exact List.mem_append_left _ (by simpa [colNames] using hx)
    · have hbm : b ∈ mb := by
        rw [hmb]
        exact List.mem_filter.mpr ⟨hb, by simpa using hx⟩
      simp only [colNames, List.map_append]
      refine List.mem_append_right _ (List.mem_append_left _ ?_)
      have hm : (⟨b.1, b.2⟩ : ColumnDef) ∈ mb.map (fun c => (⟨c.1, c.2⟩ : ColumnDef)) :=
        List.mem_map_of_mem _ hbm
      simpa using List.mem_map_of_mem ColumnDef.name hm

lemma ensure_wide_table_noop (t : WideTable) (pm : PropertyMap)
    (hbase : ∀ b ∈ base_columns, b.1 ∈ colNames t)
    (hcols : ∀ e ∈ pm.map Prod.snd, e.column ≠ "" → e.column ∈ colNames t) :
    ensure_wide_table t pm = Except.ok t := by
  have hmb : base_columns.filter (fun b => decide (b.1 ∉ colNames t)) = [] := by
    rw [List.filter_eq_nil_iff]
    intro b hb
    simp [hbase b hb]
  have hflt : (pm.map Prod.snd).filter
      (fun e => decide (e.column ≠ "") && decide (e.column ∉ colNames t)) = [] := by
    rw [List.filter_eq_nil_iff]
    intro e he
    by_cases hne : e.column = ""
    · simp [hne]
    · simp [hne, hcols e he hne]
  simp only [ensure_wide_table, hmb, List.map_nil, List.append_nil, addColumns, hflt]

/-- C4: schema evolution of the wide table is additive-only and idempotent.
For a property map whose column identifiers are collision-free (which
`_build_property_map` guarantees), `ensure_wide_table` succeeds, adds only
columns that are absent from the table (each added column being a base column
or a map column), loses no row data, and leaves every pre-existing column in
place (the old column list is a prefix of the new one).  Every non-empty map
column is present afterwards.  Calling it a second time with the same map
raises no duplicate-column error and changes nothing, and calling it with a
different map `pm'` missing a previously-seen column still only appends
columns and keeps all row data, so that column and its data stay intact. -/
theorem claim_C4_additive_idempotent (t : WideTable) (pm pm' : PropertyMap)
    (hnd : ((pm.map Prod.snd).map PropEntry.column).Nodup)
    (hnd' : ((pm'.map Prod.snd).map PropEntry.column).Nodup) :
    ∃ t' : WideTable,
      ensure_wide_table t pm = Except.ok t' ∧
      t'.rows = t.rows ∧
      (∃ added, t'.columns = t.columns ++ added ∧
        ∀ c ∈ added, c.name ∉ colNames t ∧
          (c.name ∈ base_columns.map Prod.fst ∨
           c.name ∈ (pm.map Prod.snd).map PropEntry.column)) ∧
      (∀ e ∈ pm.map Prod.snd, e.column ≠ "" → e.column ∈ colNames t') ∧
      ensure_wide_table t' pm = Except.ok t' ∧
      (∃ t'' : WideTable, ensure_wide_table t' pm' = Except.ok t'' ∧
        t''.rows = t'.rows ∧ ∃ added', t''.columns = t'.columns ++ added') := by
  obtain ⟨added, heq, hadded, hcols, hbase⟩ := ensure_wide_table_spec t pm hnd
  refine ⟨⟨t.columns ++ added, t.rows⟩, heq, rfl, ⟨added, rfl, hadded⟩, hcols, ?_, ?_⟩
  · exact ensure_wide_table_noop _ pm hbase hcols
  · obtain ⟨added', heq', _, _⟩ :=
      ensure_wide_table_spec ⟨t.columns ++ added, t.rows⟩ pm' hnd'
    exact ⟨_, heq', rfl, added', rfl⟩

theorem claim_C4_witness :
    ∃ t' : WideTable,
      ensure_wide_table
          ⟨[⟨"id", "TEXT"⟩, ⟨"last_edited_time", "TEXT"⟩, ⟨"created_time", "TEXT"⟩,
            ⟨"archived", "INTEGER"⟩, ⟨"url", "TEXT"⟩, ⟨"legacy", "TEXT"⟩],
            [[("id", "r1"), ("legacy", "kept")]]⟩
          [("Due Date", ⟨"due_date", "date", "p1", "TEXT"⟩)] = Except.ok t' ∧
      t'.rows = [[("id", "r1"), ("legacy", "kept")]] ∧
      (∃ added, t'.columns =
          [⟨"id", "TEXT"⟩, ⟨"last_edited_time", "TEXT"⟩, ⟨"created_time", "TEXT"⟩,
            ⟨"archived", "INTEGER"⟩, ⟨"url", "TEXT"⟩, ⟨"legacy", "TEXT"⟩] ++ added ∧
        ∀ c ∈ added, c.name ∉ colNames
            ⟨[⟨"id", "TEXT"⟩, ⟨"last_edited_time", "TEXT"⟩, ⟨"created_time", "TEXT"⟩,
              ⟨"archived", "INTEGER"⟩, ⟨"url", "TEXT"⟩, ⟨"legacy", "TEXT"⟩],
              [[("id", "r1"), ("legacy", "kept")]]⟩ ∧
          (c.name ∈ base_columns.map Prod.fst ∨
           c.name ∈ ([("Due Date", (⟨"due_date", "date", "p1", "TEXT"⟩ : PropEntry))].map Prod.snd).map PropEntry.column)) ∧
      (∀ e ∈ [("Due Date", (⟨"due_date", "date", "p1", "TEXT"⟩ : PropEntry))].map Prod.snd,
        e.column ≠ "" → e.column ∈ colNames t') ∧
      ensure_wide_table t' [("Due Date", ⟨"due_date", "date", "p1", "TEXT"⟩)] = Except.ok t' ∧
      (∃ t'' : WideTable, ensure_wide_table t' [] = Except.ok t'' ∧
        t''.rows = t'.rows ∧ ∃ added', t''.columns = t'.columns ++ added') :=
  claim_C4_additive_idempotent _ _ [] (by decide) (by decide)

lemma foldl_insertOrReplace :
    ∀ (rows acc : List RelationEdge),
      (∀ a ∈ acc, ∀ r ∈ rows, relKey a ≠ relKey r) →
      (rows.map relKey).Nodup →
      rows.foldl insertOrReplaceRelation acc = acc ++ rows
  | [], acc, _, _ => by simp
  | e :: rest, acc, hdisj, hnd => by
    have hacc : acc.filter (fun x => decide (relKey x ≠ relKey e)) = acc := by
      rw [List.filter_eq_self]
      intro x hx
      simp only [decide_eq_true_eq]
      exact hdisj x hx e (List.mem_cons_self _ _)
    have hnd2 : relKey e ∉ rest.map relKey ∧ (rest.map relKey).Nodup := by
      rw [List.map_cons, List.nodup_cons] at hnd
      exact hnd
    have hdisj' : ∀ a ∈ acc ++ [e], ∀ r ∈ rest, relKey a ≠ relKey r := by
      intro a ha r hr
      rcases List.mem_append.mp ha with h | h
      · exact hdisj a h r (List.mem_cons_of_mem _ hr)
      · simp only [List.mem_singleton] at h
        subst h
        intro hk
        exact hnd2.1 (hk ▸ List.mem_map_of_mem relKey hr)
    have hrec := foldl_insertOrReplace rest (acc ++ [e]) hdisj' hnd2.2
    have hstep : insertOrReplaceRelation acc e = acc ++ [e] := by
      rw [insertOrReplaceRelation, hacc]
    calc (e :: rest).foldl insertOrReplaceRelation acc
        = rest.foldl insertOrReplaceRelation (insertOrReplaceRelation acc e) := rfl
      _ = rest.foldl insertOrReplaceRelation (acc ++ [e]) := by rw [hstep]
      _ = acc ++ [e] ++ rest := hrec
      _ = acc ++ (e :: rest) := by simp

/-- C5: `replace_relations_for_page` deletes every edge whose `from_page_id`
is the given page and inserts exactly the supplied relation dicts (whose
`(property_name, to_page_id)` pairs are distinct, as produced per page by
`_extract_relations_from_page`): afterwards the page's edges are exactly the
supplied set (empty input leaves the page with no edges) and edges of other
pages are untouched, so no stale edge survives — in particular shrinking a
page's relation set from two edges to one leaves exactly that one edge. -/
theorem claim_C5_replace_relations (tbl : List RelationEdge) (pid : String)
    (rels : List RelInput)
    (hnd : (rels.map (fun r => (r.property_name, r.to_page_id))).Nodup) :
    replace_relations_for_page tbl pid rels =
      tbl.filter (fun e => decide (e.from_page_id ≠ pid)) ++ rels.map (mkEdge pid) ∧
    (replace_relations_for_page tbl pid rels).filter
        (fun e => decide (e.from_page_id = pid)) = rels.map (mkEdge pid) ∧
    (replace_relations_for_page tbl pid rels).filter
        (fun e => decide (e.from_page_id ≠ pid)) =
      tbl.filter (fun e => decide (e.from_page_id ≠ pid)) ∧
    (rels = [] → replace_relations_for_page tbl pid rels =
      tbl.filter (fun e => decide (e.from_page_id ≠ pid))) := by
  have hkeys : ((rels.map (mkEdge pid)).map relKey).Nodup := by
    have hre : (rels.map (mkEdge pid)).map relKey =
        (rels.map (fun r => (r.property_name, r.to_page_id))).map
          (fun p => (pid, p)) := by
      rw [List.map_map, List.map_map]
      exact List.map_congr_left fun a _ => rfl
    rw [hre]
    exact hnd.map (fun a b h => by
      have := congrArg Prod.snd h
      simpa using this)
  have hdisj : ∀ a ∈ tbl.filter (fun e => decide (e.from_page_id ≠ pid)),
      ∀ r ∈ rels.map (mkEdge pid), relKey a ≠ relKey r := by
    intro a ha r hr hk
    have hane : a.from_page_id ≠ pid := by
      have := (List.mem_filter.mp ha).2
      simpa using this
    obtain ⟨ri, _, hri⟩ := List.mem_map.mp hr
    have hfrom : a.from_page_id = r.from_page_id := congrArg Prod.fst hk
    rw [← hri] at hfrom
    exact hane hfrom
  have hmain : replace_relations_for_page tbl pid rels =
      tbl.filter (fun e => decide (e.from_page_id ≠ pid)) ++ rels.map (mkEdge pid) := by
    rw [replace_relations_for_page]
    exact foldl_insertOrReplace _ _ hdisj hkeys
  refine ⟨hmain, ?_, ?_, fun h => by rw [h] at hmain ⊢; simpa using hmain⟩
  · rw [hmain, List.filter_append]
    have h1 : (tbl.filter (fun e => decide (e.from_page_id ≠ pid))).filter
        (fun e => decide (e.from_page_id = pid)) = [] := by
      rw [List.filter_eq_nil_iff]
      intro a ha
      have := (List.mem_filter.mp ha).2
      simpa using this
    have h2 : (rels.map (mkEdge pid)).filter
        (fun e => decide (e.from_page_id = pid)) = rels.map (mkEdge pid) := by
      rw [List.filter_eq_self]
      intro a ha
      obtain ⟨ri, _, hri⟩ := List.mem_map.mp ha
      rw [← hri]
      simp [mkEdge]
    rw [h1, h2, List.nil_append]
  · rw [hmain, List.filter_append]
    have h1 : (tbl.filter (fun e => decide (e.from_page_id ≠ pid))).filter
        (fun e => decide (e.from_page_id ≠ pid)) =
        tbl.filter (fun e => decide (e.from_page_id ≠ pid)) := by
      rw [List.filter_eq_self]
      intro a ha
      exact (List.mem_filter.mp ha).2
    have h2 : (rels.map (mkEdge pid)).filter
        (fun e => decide (e.from_page_id ≠ pid)) = [] := by
      rw [List.filter_eq_nil_iff]
      intro a ha
      obtain ⟨ri, _, hri⟩ := List.mem_map.mp ha
      rw [← hri]
      simp [mkEdge]
    rw [h1, h2, List.append_nil]

theorem claim_C5_witness :
    replace_relations_for_page
        [⟨"r1", "Rel", "rel", "A", 0, "A"⟩, ⟨"r1", "Rel", "rel", "B", 1, "B"⟩,
          ⟨"r2", "Rel", "rel", "C", 0, "C"⟩] "r1" [⟨"Rel", "rel", "A", 0, "A"⟩] =
      ([⟨"r1", "Rel", "rel", "A", 0, "A"⟩, ⟨"r1", "Rel", "rel", "B", 1, "B"⟩,
          ⟨"r2", "Rel", "rel", "C", 0, "C"⟩].filter
        (fun e => decide (e.from_page_id ≠ "r1"))) ++
        [(⟨"Rel", "rel", "A", 0, "A"⟩ : RelInput)].map (mkEdge "r1") ∧
    replace_relations_for_page
        [⟨"r1", "Rel", "rel", "A", 0, "A"⟩, ⟨"r1", "Rel", "rel", "B", 1, "B"⟩,
          ⟨"r2", "Rel", "rel", "C", 0, "C"⟩] "r1" [⟨"Rel", "rel", "A", 0, "A"⟩] =
      [⟨"r2", "Rel", "rel", "C", 0, "C"⟩, ⟨"r1", "Rel", "rel", "A", 0, "A"⟩] :=
  ⟨(claim_C5_replace_relations _ "r1" _ (by decide)).1, by decide⟩

/-! ### Property codec: column-name generation

`sync._build_property_map` calls `normalize_column_name(property_name,
used_columns)` and `map_notion_type_to_sqlite(notion_type)`, both imported
from `.utils`; the provided sources do not contain their definitions, so they
are modelled from the specification below. -/

/-- Decimal digits, least significant first; `fuel ≥ n` suffices for the
recursion to complete. -/
def natDigitsRevFuel : Nat → Nat → List Nat
  | 0, n => [n]
  | fuel + 1, n => if n < 10 then [n] else n % 10 :: natDigitsRevFuel fuel (n / 10)

/-- Decimal digits of `n`, least significant first. -/
def natDigitsRev (n : Nat) : List Nat :=
  natDigitsRevFuel n n

def natFromDigitsRev : List Nat → Nat
  | [] => 0
  | d :: ds => d + 10 * natFromDigitsRev ds

def digitChar : Nat → Char
  | 0 => '0' | 1 => '1' | 2 => '2' | 3 => '3' | 4 => '4'
  | 5 => '5' | 6 => '6' | 7 => '7' | 8 => '8' | _ => '9'

/-- Decimal numeral of `n` as a string (what Python string formatting of the
de-duplication counter produces). -/
def natToString (n : Nat) : String :=
  ⟨(natDigitsRev n).reverse.map digitChar⟩

/-- Modelled from the spec: `normalize_column_name` is imported by sync.py
from `.utils` but absent from the provided sources.  Spec 4.2: "normalize its
name to an identifier (lowercase, non-alphanumeric collapsed to `_`,
empty→placeholder)".  `collapseRuns` replaces each maximal run of
non-alphanumeric characters by a single `_`. -/
def collapseRunsAux : List Char → Bool → List Char
  | [], _ => []
  | c :: rest, skipping =>
    if c.isAlphanum then c :: collapseRunsAux rest false
    else if skipping then collapseRunsAux rest true
    else '_' :: collapseRunsAux rest true

def collapseRuns (l : List Char) : List Char :=
  collapseRunsAux l false

/-- Modelled from the spec: the base identifier for a property name —
lowercase, non-alphanumeric runs collapsed to `_`, a placeholder for the
empty result. -/
def normalizeBase (name : String) : String :=
  let s : String := ⟨collapseRuns (name.data.map Char.toLower)⟩
  if s = "" then "column" else s

/-- The candidate identifier `f"{base}_{i}"` tried by the de-duplication
loop. -/
def candName (base : String) (i : Nat) : String :=
  base ++ "_" ++ natToString i

/-- Modelled from the spec: the de-duplication loop — try `base_2`, `base_3`,
… until a candidate is not among the already assigned names.  `fuel` bounds
the loop; `normalize_column_name` supplies enough fuel for a free candidate
to exist. -/
def dedupFrom (base : String) (used : List String) : Nat → Nat → String
  | _, 0 => base
  | i, fuel + 1 =>
    let cand := candName base i
    if cand ∈ used then dedupFrom base used (i + 1) fuel else cand

/-- Modelled from the spec: `normalize_column_name(name, used_columns)` —
normalize to the base identifier and de-duplicate by appending `_2`, `_3`, …
against the names already assigned in this pass. -/
def normalize_column_name (name : String) (used : List String) : String :=
  let base := normalizeBase name
  if base ∈ used then dedupFrom base used 2 (used.length + 1) else base

/-- Modelled from the spec: `map_notion_type_to_sqlite` is imported by
sync.py from `.utils` but absent from the provided sources.  Spec 4.2 type
table: number→real, checkbox→boolean-as-integer, everything else stored as
text (plain or JSON-encoded). -/
def map_notion_type_to_sqlite (t : String) : String :=
  if t = "number" then "REAL"
  else if t = "checkbox" then "INTEGER"
  else "TEXT"

/-- A remote property definition as consumed by `_build_property_map`: the
`type` and `id` fields of one entry of the schema's `properties` dict. -/
structure RemotePropDef where
  ptype : Option String
  pid : String
deriving DecidableEq, Repr

/-- The loop body of `sync._build_property_map` (sync.py lines 75-89), with
the `used_columns` accumulator made explicit. -/
def buildPropertyMapAux : List (String × RemotePropDef) → List String → PropertyMap
  | [], _ => []
  | (property_name, prop) :: rest, used =>
    let notion_type := orStr prop.ptype "text"
    let sqlite_type := map_notion_type_to_sqlite notion_type
    let column_name := normalize_column_name property_name used
    (property_name, ⟨column_name, notion_type, prop.pid, sqlite_type⟩) ::
      buildPropertyMapAux rest (used ++ [column_name])

/-- `sync._build_property_map`: process the properties dict in iteration
order, starting from an empty `used_columns` list. -/
def _build_property_map (props : List (String × RemotePropDef)) : PropertyMap :=
  buildPropertyMapAux props []

lemma natDigitsRevFuel_from :
    ∀ (fuel n : Nat), n ≤ fuel → natFromDigitsRev (natDigitsRevFuel fuel n) = n
  | 0, n, h => by
    have hn : n = 0 := by omega
    simp [natDigitsRevFuel, natFromDigitsRev, hn]
  | fuel + 1, n, h => by
    rw [natDigitsRevFuel]
    split
    · simp [natFromDigitsRev]
    · have hrec := natDigitsRevFuel_from fuel (n / 10)
        (by
          have := Nat.div_lt_self (n := n) (by omega) (by omega : 1 < 10)
          omega)
      rw [natFromDigitsRev, hrec]
      omega

lemma natDigitsRev_from (n : Nat) : natFromDigitsRev (natDigitsRev n) = n :=
  natDigitsRevFuel_from n n (le_refl n)

lemma natDigitsRevFuel_lt10 :
    ∀ (fuel n : Nat), n ≤ fuel → ∀ d ∈ natDigitsRevFuel fuel n, d < 10
  | 0, n, h => by
    intro d hd
    simp only [natDigitsRevFuel, List.mem_singleton] at hd
    omega
  | fuel + 1, n, h => by
    intro d hd
    rw [natDigitsRevFuel] at hd
    split at hd
    · simp only [List.mem_singleton] at hd
      omega
    · rcases List.mem_cons.mp hd with h1 | h1
      · omega
      · exact natDigitsRevFuel_lt10 fuel (n / 10)
          (by
            have := Nat.div_lt_self (n := n) (by omega) (by omega : 1 < 10)
            omega) d h1

lemma natDigitsRev_lt10 (n : Nat) : ∀ d ∈ natDigitsRev n, d < 10 :=
  natDigitsRevFuel_lt10 n n (le_refl n)

lemma digitChar_inj : ∀ d < 10, ∀ e < 10, digitChar d = digitChar e → d = e := by
  decide

lemma map_digitChar_inj :
    ∀ (xs ys : List Nat), (∀ d ∈ xs, d < 10) → (∀ d ∈ ys, d < 10) →
      xs.map digitChar = ys.map digitChar → xs = ys
  | [], [], _, _, _ => rfl
  | [], _ :: _, _, _, h => by simp at h
  | _ :: _, [], _, _, h => by simp at h
  | x :: xs, y :: ys, hx, hy, h => by
    rw [List.map_cons, List.map_cons] at h
    have h1 := List.head_eq_of_cons_eq h
    have h2 := List.tail_eq_of_cons_eq h
    have hxy : x = y :=
      digitChar_inj x (hx x (List.mem_cons_self _ _)) y (hy y (List.mem_cons_self _ _)) h1
    rw [hxy, map_digitChar_inj xs ys
      (fun d hd => hx d (List.mem_cons_of_mem _ hd))
      (fun d hd => hy d (List.mem_cons_of_mem _ hd)) h2]

lemma natToString_inj {a b : Nat} (h : natToString a = natToString b) : a = b := by
  have hdata : ((natDigitsRev a).reverse.map digitChar) =
      ((natDigitsRev b).reverse.map digitChar) := congrArg String.data h
  have hrev : (natDigitsRev a).reverse = (natDigitsRev b).reverse :=
    map_digitChar_inj _ _
      (fun d hd => natDigitsRev_lt10 a d (List.mem_reverse.mp hd))
      (fun d hd => natDigitsRev_lt10 b d (List.mem_reverse.mp hd)) hdata
  have hdig : natDigitsRev a = natDigitsRev b := List.reverse_injective hrev
  calc a = natFromDigitsRev (natDigitsRev a) := (natDigitsRev_from a).symm
    _ = natFromDigitsRev (natDigitsRev b) := by rw [hdig]
    _ = b := natDigitsRev_from b

lemma string_data_append (a b : String) : (a ++ b).data = a.data ++ b.data := by
  cases a
  cases b
  rfl

lemma candName_inj (base : String) : Function.Injective (candName base) := by
  intro i j h
  rw [candName, candName] at h
  have hdata := congrArg String.data h
  rw [string_data_append, string_data_append, string_data_append,
    string_data_append] at hdata
  have h2 := List.append_cancel_left hdata
  exact natToString_inj (String.ext h2)

lemma exists_fresh_cand (base : String) (used : List String) :
    ∃ j, 2 ≤ j ∧ j < 2 + (used.length + 1) ∧ candName base j ∉ used := by
  by_contra hcon
  push_neg at hcon
  have hsub : (List.range' 2 (used.length + 1)).map (candName base) ⊆ used := by
    intro x hx
    obtain ⟨j, hj, hjx⟩ := List.mem_map.mp hx
    have hjr := List.mem_range'.mp hj
    exact hjx ▸ hcon j (by omega) (by omega)
  have hnd : ((List.range' 2 (used.length + 1)).map (candName base)).Nodup :=
    (List.nodup_range' _ _).map (candName_inj base)
  have hle := (hnd.subperm hsub).length_le
  simp at hle

lemma dedupFrom_fresh (base : String) (used : List String) :
    ∀ (fuel i : Nat), (∃ j, i ≤ j ∧ j < i + fuel ∧ candName base j ∉ used) →
      dedupFrom base used i fuel ∉ used
  | 0, i, h => by
    obtain ⟨j, h1, h2, _⟩ := h
    omega
  | fuel + 1, i, h => by
    rw [dedupFrom]
    split
    · refine dedupFrom_fresh base used fuel (i + 1) ?_
      obtain ⟨j, h1, h2, h3⟩ := h
      refine ⟨j, ?_, by omega, h3⟩
      rcases Nat.eq_or_lt_of_le h1 with he | hlt
      · subst he
        exact absurd (by assumption) h3
      · omega
    · assumption

lemma normalize_column_name_fresh (name : String) (used : List String) :
    normalize_column_name name used ∉ used := by
  rw [normalize_column_name]
  split
  · refine dedupFrom_fresh _ _ _ _ ?_
    obtain ⟨j, h1, h2, h3⟩ := exists_fresh_cand (normalizeBase name) used
    exact ⟨j, h1, by omega, h3⟩
  · assumption

lemma buildPropertyMapAux_spec :
    ∀ (props : List (String × RemotePropDef)) (used : List String),
      (buildPropertyMapAux props used).map Prod.fst = props.map Prod.fst ∧
      (((buildPropertyMapAux props used).map Prod.snd).map PropEntry.column).Nodup ∧
      (∀ c ∈ ((buildPropertyMapAux props used).map Prod.snd).map PropEntry.column,
        c ∉ used)
  | [], _ => by simp [buildPropertyMapAux]
  | (property_name, prop) :: rest, used => by
    have ih := buildPropertyMapAux_spec rest
      (used ++ [normalize_column_name property_name used])
    refine ⟨?_, ?_, ?_⟩
    · simp [buildPropertyMapAux, ih.1]
    · rw [buildPropertyMapAux]
      simp only [List.map_cons, List.nodup_cons]
      refine ⟨?_, ih.2.1⟩
      intro hmem
      have := ih.2.2 _ hmem
      simp at this
    · rw [buildPropertyMapAux]
      simp only [List.map_cons]
      intro c hc
      rcases List.mem_cons.mp hc with h | h
      · rw [h]
        exact normalize_column_name_fresh property_name used
      · intro hcu
        exact (ih.2.2 c h) (List.mem_append_left _ hcu)

/-- C9: column-name generation through `_build_property_map` is
deterministic (a pure function of the input list), order-stable (the output
lists the property names in input iteration order) and collision-free (the
generated column identifiers are pairwise distinct, each normalized name
de-duplicated with `_2`, `_3`, … against the names already assigned); the
normalizer lowercases and collapses non-alphanumeric runs to `_` and maps the
empty name to a placeholder, so the inputs "Due Date" then "due date" yield
exactly the identifiers `due_date` and `due_date_2`. -/
theorem claim_C9_column_generation (props : List (String × RemotePropDef)) :
    (_build_property_map props).map Prod.fst = props.map Prod.fst ∧
    (((_build_property_map props).map Prod.snd).map PropEntry.column).Nodup ∧
    normalize_column_name "Due Date" [] = "due_date" ∧
    normalize_column_name "" [] = "column" ∧
    ((_build_property_map
        [("Due Date", ⟨some "date", "p1"⟩), ("due date", ⟨some "rich_text", "p2"⟩)]).map
      (fun p => p.2.column)) = ["due_date", "due_date_2"] := by
  refine ⟨(buildPropertyMapAux_spec props []).1,
    (buildPropertyMapAux_spec props []).2.1, ?_, ?_, ?_⟩
  · decide
  · decide
  · decide

/-! ### Relation extraction and display-column materialization

`sync._extract_relations_from_page` (sync.py 109-136) walks a page's
properties dict; `repository.update_relation_columns` (repository.py 186-252)
joins the relation edges of every page against the page cache and writes a
JSON array per relation property back into the wide table. -/

/-- Python truthiness of an optional string: `None` and `""` are falsy. -/
def truthy : Option String → Option String
  | none => none
  | some s => if s = "" then none else some s

/-- One entry of a relation property's `relation` list (a dict with an `id`
or `page_id` key). -/
structure RelRef where
  rid : Option String
  page_id : Option String
deriving DecidableEq, Repr

/-- A property value dict on a page: its `type` tag and (for relation
properties) the target list. -/
structure PageProp where
  ptype : String
  relation : List RelRef
deriving DecidableEq, Repr

/-- A remote page as consumed by the sweep: id plus properties dict. -/
structure NotionPage where
  id : String
  properties : List (String × PageProp)
deriving DecidableEq, Repr

def lookupPM (pm : PropertyMap) (name : String) : Option PropEntry :=
  (pm.find? (fun p => p.1 = name)).map Prod.snd

/-- `rel.get("id") or rel.get("page_id")`, skipped when falsy. -/
def relTarget (r : RelRef) : Option String :=
  match truthy r.rid with
  | some s => some s
  | none => truthy r.page_id

/-- `property_map.get(prop_name, {}).get("column") or prop_name`. -/
def propValueName (pm : PropertyMap) (prop_name : String) : String :=
  match lookupPM pm prop_name with
  | some e => if e.column = "" then prop_name else e.column
  | none => prop_name

/-- The inner loop of `_extract_relations_from_page` for one property:
non-relation properties contribute nothing; `enumerate` indexes every entry
of the `relation` list (also skipped ones), and entries without a truthy
target id are skipped. -/
def relInputsOfProp (pm : PropertyMap) (prop_name : String) (pv : PageProp) :
    List RelInput :=
  if pv.ptype = "relation" then
    pv.relation.enum.filterMap (fun p =>
      match relTarget p.2 with
      | none => none
      | some t => some ⟨prop_name, propValueName pm prop_name, t, p.1, t⟩)
  else []

/-- `sync._extract_relations_from_page`: relation dicts of a page in
properties-dict order. -/
def _extract_relations_from_page (page : NotionPage) (pm : PropertyMap) :
    List RelInput :=
  (page.properties.map (fun q => relInputsOfProp pm q.1 q.2)).flatten

/-- The set of relation target ids collected alongside the relation dicts. -/
def extractRelationTargets (page : NotionPage) (pm : PropertyMap) : List String :=
  ((_extract_relations_from_page page pm).map RelInput.to_page_id).dedup

/-- A row of the `notion_page_cache` table, reduced to the fields read by
`update_relation_columns` (`title` may be NULL). -/
structure PageCacheEntry where
  id : String
  title : Option String
deriving DecidableEq, Repr

def getCached (cache : List PageCacheEntry) (i : String) : Option PageCacheEntry :=
  cache.find? (fun e => e.id = i)

/-- Stable insertion keeping earlier elements first among equal positions —
the ordering Python's `sorted(entries, key=lambda e: e.get("position", 0))`
produces. -/
def insertByPos (e : RelationEdge) : List RelationEdge → List RelationEdge
  | [] => [e]
  | x :: xs => if e.position ≤ x.position then e :: x :: xs else x :: insertByPos e xs

def sortByPos : List RelationEdge → List RelationEdge
  | [] => []
  | x :: xs => insertByPos x (sortByPos xs)

/-- Minimal `json.dumps` for a list of strings (the ids and titles involved
contain no characters needing escapes). -/
def jsonStr (s : String) : String := "\"" ++ s ++ "\""

def jsonArray (xs : List String) : String :=
  "[" ++ String.intercalate ", " (xs.map jsonStr) ++ "]"

def lookupRow (r : WideRow) (c : String) : Option String :=
  (r.find? (fun p => p.1 = c)).map Prod.snd

/-- `UPDATE notion_rows SET c = v` for one row. -/
def setCol (r : WideRow) (c v : String) : WideRow :=
  if (r.find? (fun p => p.1 = c)).isSome then
    r.map (fun p => if p.1 = c then (c, v) else p)
  else r ++ [(c, v)]

/-- `get_relations_for_pages` restricted to one page: its edges grouped by
property name (first-occurrence order after ordering by position), each group
ordered by `position`. -/
def relationsForPage (tbl : List RelationEdge) (p : String) :
    List (String × List RelationEdge) :=
  let mine := sortByPos (tbl.filter (fun e => decide (e.from_page_id = p)))
  ((mine.map RelationEdge.property_name).dedup).map
    (fun n => (n, mine.filter (fun e => decide (e.property_name = n))))

/-- The per-page `row_updates` computation of `update_relation_columns`
(repository.py 213-241): for each relation property with edges, resolve the
display label of each edge as `entry.get("value") or title or
entry.get("to_page_id")` (the stored `value` field first, then the cached
title, then the raw id) and JSON-join them in position order under the
property's map column (falling back to the first non-empty stored
`property_value`). -/
def rowUpdatesFor (relation_columns : List (String × String))
    (cache : List PageCacheEntry) (tbl : List RelationEdge) (p : String) :
    List (String × String) :=
  (relationsForPage tbl p).filterMap (fun g =>
    let column_name :=
      match truthy ((relation_columns.find? (fun rc => rc.1 = g.1)).map Prod.snd) with
      | some c => some c
      | none => ((g.2.find? (fun (e : RelationEdge) => decide (e.property_value ≠ ""))).map
          RelationEdge.property_value)
    match column_name with
    | none => none
    | some c =>
      let relation_values := (sortByPos g.2).map (fun (e : RelationEdge) =>
        let title :=
          match getCached cache e.to_page_id with
          | some entry => match entry.title with | some t => t | none => ""
          | none => ""
        if e.value ≠ "" then e.value
        else if title ≠ "" then title
        else e.to_page_id)
      if relation_values = [] then none else some (c, jsonArray relation_values))

/-- `NotionRepository.update_relation_columns`: for every row of the wide
table with a non-empty id, apply that page's `row_updates`; without relation
properties in the map the table is untouched. -/
def update_relation_columns (pm : PropertyMap) (rows : List WideRow)
    (tbl : List RelationEdge) (cache : List PageCacheEntry) : List WideRow :=
  let relation_properties := pm.filter (fun q => decide (q.2.ptype = "relation"))
  if relation_properties = [] then rows
  else
    let relation_columns := relation_properties.map
      (fun q => (q.1, if q.2.column = "" then q.1 else q.2.column))
    rows.map (fun row =>
      match truthy (lookupRow row "id") with
      | none => row
      | some p =>
        (rowUpdatesFor relation_columns cache tbl p).foldl
          (fun r u => setCol r u.1 u.2) row)

/-- C6: evaluation of the materialization pipeline on the spec's two-record
scenario R1→R2, R2→(none), with R2's title cached.  Extracting R1's relation
property yields one edge whose stored `value` field is the raw target id
`"r2"`; after `replace_relations_for_page` and `update_relation_columns`,
R1's relation property column `rel` — the very column `_row_from_page` uses
for the raw relation value, not a distinct display column — holds the JSON
array `["r2"]` of raw ids, not `["R2 title"]` from the page cache: the
or-chain `entry.get("value") or title or to_page_id` consults the stored
value (always the raw id) before the cached title, so the claimed title
resolution never happens. -/
theorem claim_C6_display_column_uses_raw_id :
    _extract_relations_from_page
        ⟨"r1", [("Name", ⟨"title", []⟩), ("Rel", ⟨"relation", [⟨some "r2", none⟩]⟩)]⟩
        [("Name", ⟨"name", "title", "pt", "TEXT"⟩),
         ("Rel", ⟨"rel", "relation", "pr", "TEXT"⟩)] =
      [⟨"Rel", "rel", "r2", 0, "r2"⟩] ∧
    update_relation_columns
        [("Name", ⟨"name", "title", "pt", "TEXT"⟩),
         ("Rel", ⟨"rel", "relation", "pr", "TEXT"⟩)]
        [[("id", "r1")], [("id", "r2")]]
        (replace_relations_for_page [] "r1" [⟨"Rel", "rel", "r2", 0, "r2"⟩])
        [⟨"r2", some "R2 title"⟩] =
      [[("id", "r1"), ("rel", jsonArray ["r2"])], [("id", "r2")]] ∧
    jsonArray ["r2"] ≠ jsonArray ["R2 title"] := by
  refine ⟨by decide, by decide, by decide⟩

/-! ### Orchestrator: `sync.run_full_sync`

The orchestrator's effects are abstracted into an environment: each repo or
client call site becomes a field holding the outcome that call would produce
(`Except.error` standing for a raised exception).  `run_full_sync env`
returns `Except.ok result` when the Python function returns a `SyncResult`
and `Except.error e` when it lets an exception escape.  Error-message
formatting keeps the structure of the Python messages without the exact
localized text. -/

structure SyncSettings where
  notion_api_key : Option String
  notion_database_id : Option String
  notion_data_source_name : Option String
  notion_api_base_url : Option String
  notion_api_version : Option String
deriving DecidableEq, Repr

structure NotionDataSource where
  dsid : Option String
  name : Option String
deriving DecidableEq, Repr

structure NotionDatabase where
  data_sources : List NotionDataSource
  properties : List (String × RemotePropDef)
deriving DecidableEq, Repr

structure SyncEnv where
  settings : SyncSettings
  db_path : Option String
  meta_database_id : Option String
  set_meta_database_id : Except String Unit
  retrieve_database : Except String NotionDatabase
  meta_data_source_id : Option String
  meta_data_source_name : Option String
  set_meta_data_source : Except String Unit
  retrieve_data_source : Except String (List (String × RemotePropDef))
  persist_schema : Except String Unit
  ensure_wide_table_step : Except String Unit
  fetch_pages : Except String (List NotionPage)
  page_store : NotionPage → Except String Unit
  stale_filter : List String → List String
  resolve_target : String → Except String Unit
  update_relation_columns_step : Except String Unit
  finalize_meta : Except String Unit

/-- `sync._ensure_database_id` (sync.py 42-51): a stored truthy meta value
wins; otherwise the supplied id is persisted (the `set_meta` call can raise)
and returned; a falsy id raises. -/
def _ensure_database_id (stored : Option String) (database_id : String)
    (set_meta_db : Except String Unit) : Except String String :=
  match truthy stored with
  | some s => Except.ok s
  | none =>
    if database_id = "" then Except.error "Notion Database ID fehlt."
    else
      match set_meta_db with
      | Except.error e => Except.error e
      | Except.ok _ => Except.ok database_id

/-- `", ".join(filter(None, names)) or "keine"`. -/
def availableNames (db : NotionDatabase) : String :=
  let names := db.data_sources.filterMap (fun e => truthy e.name)
  if names = [] then "keine" else String.intercalate ", " names

/-- `sync._select_data_source` (sync.py 54-72): prefer the stored
data-source id, then the desired name (raising and listing the available
names when absent), else the first data source, if any. -/
def _select_data_source (db : NotionDatabase) (stored : Option String)
    (desired : Option String) : Except String (Option NotionDataSource) :=
  let found := match truthy stored with
    | some sid => db.data_sources.find? (fun (e : NotionDataSource) => e.dsid = some sid)
    | none => none
  match found with
  | some e => Except.ok (some e)
  | none =>
    match desired with
    | some dn =>
      match db.data_sources.find? (fun (e : NotionDataSource) => e.name = some dn) with
      | some e => Except.ok (some e)
      | none => Except.error ("Data Source '" ++ dn ++
          "' nicht gefunden. Verfuegbare Data Sources: " ++ availableNames db ++ ".")
    | none => Except.ok db.data_sources.head?

/-- The page sweep loop (sync.py 277-294): `fetched_count` is bumped at the
top of each iteration, the store calls follow (uncaught), `upserted_count` is
bumped at the end.  Returns the two counters and the escaped exception, if
any. -/
def processPages (store : NotionPage → Except String Unit) :
    List NotionPage → Nat × Nat × Option String
  | [] => (0, 0, none)
  | p :: rest =>
    match store p with
    | Except.error e => (1, 0, some e)
    | Except.ok _ =>
      let r := processPages store rest
      (r.1 + 1, r.2.1 + 1, r.2.2)

/-- `sync._resolve_relation_targets` (sync.py 148-174): each target fetch
runs inside its own `try`/`except`; a failing target is logged and skipped.
Returns the targets that were successfully cached. -/
def _resolve_relation_targets (resolve : String → Except String Unit)
    (ids : List String) : List String :=
  ids.filterMap (fun pid =>
    match resolve pid with
    | Except.error _ => none
    | Except.ok _ => some pid)

/-- The `_result(ok=False, error=msg)` shape: every caught failure in
`run_full_sync` is returned before any page is processed, so its counters are
zero. -/
def failResult (msg : String) : SyncResult :=
  ⟨false, "full", 0, 0, 0, some msg⟩

def isSpaceChar (c : Char) : Bool :=
  c = ' ' || c = '\t' || c = '\n' || c = '\r'

/-- Python `str.strip()`: drop leading and trailing whitespace. -/
def pyStrip (s : String) : String :=
  ⟨((s.data.dropWhile isSpaceChar).reverse.dropWhile isSpaceChar).reverse⟩

/-- The desired data-source name handed to `_select_data_source`: the
stripped setting, falling back to the stripped `data_source_name` meta value,
passed as `... or None` (sync.py 182, 223-224, 227). -/
def desiredDataSourceName (env : SyncEnv) : Option String :=
  let s := pyStrip (orStr env.settings.notion_data_source_name "")
  let s2 := if s = "" then pyStrip (orStr env.meta_data_source_name "") else s
  if s2 = "" then none else some s2

/-- `sync.run_full_sync` (sync.py 177-307) over the effect environment.
`Except.error` models an exception escaping the function: `_get_repository`
(uncaught), schema persistence and `ensure_wide_table` (step 4, outside every
`try`), the per-page store calls of the sweep loop, and the post-sweep
`update_relation_columns`/meta writes propagate; settings, database-id,
database retrieval, data-source selection and preparation, and the page-list
fetch are caught and become `ok=false` results.  The `missing_fields` check
is written out over the two mandatory settings. -/
def run_full_sync (env : SyncEnv) : Except String SyncResult :=
  match truthy env.settings.notion_api_key, truthy env.settings.notion_database_id with
  | none, none =>
    Except.ok (failResult "Notion Einstellungen unvollstaendig: API Key, Database ID fehlen.")
  | none, some _ =>
    Except.ok (failResult "Notion Einstellungen unvollstaendig: API Key fehlen.")
  | some _, none =>
    Except.ok (failResult "Notion Einstellungen unvollstaendig: Database ID fehlen.")
  | some _, some database_id =>
    match truthy env.db_path with
    | none => Except.error "NOTION_DB_PATH is not configured"
    | some _ =>
      match _ensure_database_id env.meta_database_id database_id
          env.set_meta_database_id with
      | Except.error e =>
        Except.ok (failResult ("Fehler beim Pruefen der Database ID: " ++ e))
      | Except.ok db_id =>
        match env.retrieve_database with
        | Except.error e =>
          Except.ok (failResult ("Fehler beim Laden der Notion Database " ++
            db_id ++ ": " ++ e))
        | Except.ok database =>
          match _select_data_source database env.meta_data_source_id
              (desiredDataSourceName env) with
          | Except.error e => Except.ok (failResult e)
          | Except.ok chosen =>
            let no_id : Bool := match chosen with
              | some ds => (truthy ds.dsid).isNone
              | none => false
            if no_id then
              Except.ok (failResult "Gewaehlte Data Source enthaelt keine ID.")
            else
              let using_ds : Bool := match chosen with
                | some ds => (truthy ds.dsid).isSome
                | none => false
              match (match env.set_meta_data_source with
                | Except.error e => Except.error e
                | Except.ok _ =>
                  if using_ds then env.retrieve_data_source
                  else Except.ok database.properties) with
              | Except.error e =>
                Except.ok (failResult ("Fehler beim Vorbereiten des Sync: " ++ e))
              | Except.ok properties =>
                let property_map := _build_property_map properties
                match env.persist_schema with
                | Except.error e => Except.error e
                | Except.ok _ =>
                  match env.ensure_wide_table_step with
                  | Except.error e => Except.error e
                  | Except.ok _ =>
                    match env.fetch_pages with
                    | Except.error e =>
                      Except.ok (failResult ("Fehler waehrend des Syncs: " ++ e))
                    | Except.ok pages =>
                      match processPages env.page_store pages with
                      | (_, _, some e) => Except.error e
                      | (f, u, none) =>
                        let targets := ((pages.map
                          (fun p => extractRelationTargets p property_map)).flatten).dedup
                        let _resolved := _resolve_relation_targets env.resolve_target
                          (env.stale_filter targets)
                        match env.update_relation_columns_step with
                        | Except.error e => Except.error e
                        | Except.ok _ =>
                          match env.finalize_meta with
                          | Except.error e => Except.error e
                          | Except.ok _ =>
                            Except.ok ⟨true, "full", f, u, 0, none⟩

/-- `NotionSyncManager._run_sync` (sync_manager.py 48-61): the background
thread body has no `try`/`except` around `run_full_sync`; only when a
`SyncResult` comes back does the terminal transition run.  An exception from
the orchestrator escapes the thread body and the state is left as it was. -/
def _run_sync (st : JobState) (outcome : Except String SyncResult)
    (now : String) : Except String JobState :=
  match outcome with
  | Except.error e => Except.error e
  | Except.ok result =>
    Except.ok { st with
      result := some result,
      status := if result.ok then "completed" else "error",
      error := if result.ok then none else some (orStr result.error "Sync failed"),
      finished_at := some now }

lemma processPages_none (store : NotionPage → Except String Unit) :
    ∀ pages, (processPages store pages).2.2 = none →
      (processPages store pages).1 = pages.length ∧
      (processPages store pages).2.1 = pages.length ∧
      ∀ p ∈ pages, store p = Except.ok ()
  | [] => by
    intro _
    simp [processPages]
  | p :: rest => by
    intro h
    cases hsp : store p with
    | error e =>
      rw [processPages, hsp] at h
      simp at h
    | ok u =>
      rw [processPages, hsp] at h
      simp only at h
      obtain ⟨h1, h2, h3⟩ := processPages_none store rest h
      refine ⟨?_, ?_, ?_⟩
      · rw [processPages, hsp]
        simpa using h1
      · rw [processPages, hsp]
        simpa using h2
      · intro q hq
        rcases List.mem_cons.mp hq with hq1 | hq1
        · cases u
          rw [hq1, hsp]
        · exact h3 q hq1

lemma run_full_sync_cases (env : SyncEnv) :
    (∃ msg, run_full_sync env = Except.ok (failResult msg)) ∨
    (∃ e, run_full_sync env = Except.error e) ∨
    (∃ pages, env.fetch_pages = Except.ok pages ∧
      env.persist_schema = Except.ok () ∧
      env.ensure_wide_table_step = Except.ok () ∧
      (processPages env.page_store pages).2.2 = none ∧
      run_full_sync env =
        Except.ok ⟨true, "full", pages.length, pages.length, 0, none⟩) := by
  simp only [run_full_sync]
  split
  · exact Or.inl ⟨_, rfl⟩
  · exact Or.inl ⟨_, rfl⟩
  · exact Or.inl ⟨_, rfl⟩
  split
  · exact Or.inr (Or.inl ⟨_, rfl⟩)
  split
  · exact Or.inl ⟨_, rfl⟩
  split
  · exact Or.inl ⟨_, rfl⟩
  split
  · exact Or.inl ⟨_, rfl⟩
  split
  · exact Or.inl ⟨_, rfl⟩
  split
  · exact Or.inl ⟨_, rfl⟩
  split
  · exact Or.inr (Or.inl ⟨_, rfl⟩)
  rename_i hps
  split
  · exact Or.inr (Or.inl ⟨_, rfl⟩)
  rename_i hew
  split
  · exact Or.inl ⟨_, rfl⟩
  rename_i pages hfetch
  split
  · exact Or.inr (Or.inl ⟨_, rfl⟩)
  rename_i f u hpp
  split
  · exact Or.inr (Or.inl ⟨_, rfl⟩)
  split
  · exact Or.inr (Or.inl ⟨_, rfl⟩)
  refine Or.inr (Or.inr ⟨pages, hfetch, hps, hew, ?_, ?_⟩)
  · rw [hpp]
  · obtain ⟨h1, h2, _⟩ := processPages_none env.page_store pages (by rw [hpp])
    rw [hpp] at h1 h2
    simp only at h1 h2
    rw [h1, h2]

/-- C7 (amended): every caught failure of `run_full_sync` — settings
resolution, database-identity resolution, schema-container discovery and
selection, and the page-list fetch — returns `ok=false` with both counters at
0 (fetching the page list strictly precedes processing, so the counts
processed so far at any caught failure are zero); a successful result implies
the step-4 schema persistence and `ensure_wide_table` calls succeeded (their
failures propagate as exceptions instead of producing a result, as do
per-page store failures: a successful result also implies every page's store
calls succeeded and both counters equal the page count); and per-target
failures in relation resolution never influence the outcome: the result is
invariant under replacing the target resolver. -/
theorem claim_C7_failure_semantics (env : SyncEnv)
    (f : String → Except String Unit) :
    (∀ r : SyncResult, run_full_sync env = Except.ok r → r.ok = false →
      r.fetched_count = 0 ∧ r.upserted_count = 0) ∧
    (∀ r : SyncResult, run_full_sync env = Except.ok r → r.ok = true →
      env.persist_schema = Except.ok () ∧
      env.ensure_wide_table_step = Except.ok () ∧
      ∃ pages, env.fetch_pages = Except.ok pages ∧
        r.fetched_count = pages.length ∧ r.upserted_count = pages.length ∧
        ∀ p ∈ pages, env.page_store p = Except.ok ()) ∧
    run_full_sync { env with resolve_target := f } = run_full_sync env := by
  refine ⟨?_, ?_, rfl⟩
  · intro r hr hfalse
    rcases run_full_sync_cases env with ⟨msg, h⟩ | ⟨e, h⟩ | ⟨pages, _, _, _, _, h⟩
    · rw [h] at hr
      cases hr
      exact ⟨rfl, rfl⟩
    · rw [h] at hr
      cases hr
    · rw [h] at hr
      cases hr
      cases hfalse
  · intro r hr htrue
    rcases run_full_sync_cases env with ⟨msg, h⟩ | ⟨e, h⟩ | ⟨pages, h1, h2, h3, h4, h⟩
    · rw [h] at hr
      cases hr
      cases htrue
    · rw [h] at hr
      cases hr
    · rw [h] at hr
      cases hr
      obtain ⟨_, _, hstore⟩ := processPages_none env.page_store pages h4
      exact ⟨h2, h3, pages, h1, rfl, rfl, hstore⟩

/-- A fully healthy environment: valid settings, configured store, a
database exposing one property and no sub-sources, one page to sweep. -/
def envOkC7 : SyncEnv :=
  { settings := ⟨some "tok", some "db1", none, none, none⟩,
    db_path := some "/data/notion.db",
    meta_database_id := none,
    set_meta_database_id := Except.ok (),
    retrieve_database := Except.ok ⟨[], [("Name", ⟨some "title", "p1"⟩)]⟩,
    meta_data_source_id := none,
    meta_data_source_name := none,
    set_meta_data_source := Except.ok (),
    retrieve_data_source := Except.ok [],
    persist_schema := Except.ok (),
    ensure_wide_table_step := Except.ok (),
    fetch_pages := Except.ok [⟨"r1", []⟩],
    page_store := fun _ => Except.ok (),
    stale_filter := fun l => l,
    resolve_target := fun _ => Except.ok (),
    update_relation_columns_step := Except.ok (),
    finalize_meta := Except.ok () }

theorem claim_C7_counterexample :
    run_full_sync { envOkC7 with ensure_wide_table_step := Except.error "disk I/O error" } =
      Except.error "disk I/O error" ∧
    (run_full_sync { envOkC7 with
        ensure_wide_table_step := Except.error "disk I/O error" }).toOption = none :=
  ⟨by rfl, by rfl⟩

theorem claim_C7_witness :
    ((failResult "Notion Einstellungen unvollstaendig: API Key, Database ID fehlen.").fetched_count = 0 ∧
      (failResult "Notion Einstellungen unvollstaendig: API Key, Database ID fehlen.").upserted_count = 0) ∧
    run_full_sync { envOkC7 with resolve_target := fun _ => Except.error "boom" } =
      run_full_sync envOkC7 :=
  ⟨(claim_C7_failure_semantics
      { envOkC7 with settings := ⟨none, none, none, none, none⟩ }
      (fun _ => Except.ok ())).1
      (failResult "Notion Einstellungen unvollstaendig: API Key, Database ID fehlen.")
      (by rfl) rfl,
    (claim_C7_failure_semantics envOkC7 (fun _ => Except.error "boom")).2.2⟩

/-- C8: the job manager does propagate exceptions.  With `NOTION_DB_PATH`
unset, `_get_repository` raises out of `run_full_sync`; the thread body
`_run_sync` has no `try`/`except`, so no terminal transition runs and the
state set by `start_sync` keeps `status = "running"` forever instead of
becoming `"error"` with `error` populated. -/
theorem claim_C8_exception_leaves_running :
    run_full_sync { envOkC7 with db_path := none } =
      Except.error "NOTION_DB_PATH is not configured" ∧
    _run_sync (start_sync initialJobState true "t1").1
        (run_full_sync { envOkC7 with db_path := none }) "t2" =
      Except.error "NOTION_DB_PATH is not configured" ∧
    (start_sync initialJobState true "t1").1.status = "running" :=
  ⟨by rfl, by rfl, by rfl⟩

end CentralUpstream
